import Mathlib

set_option maxRecDepth 100000

/-!
Verification of the idea-aggregation pipeline (scrapers → normalize →
deduplicate → LLM analysis → relevance filter → storage).

The Python sources are shallowly embedded: dictionaries become structures
with `Option` fields where key absence is observable, Python floats in the
similarity computation become exact rationals, timestamps become seconds
since the epoch (`Nat`), and the external collaborators (the fuzzy `ratio`
library function, `json.loads`, the LLM generation call) become explicit
parameters or oracle values, exactly as the spec treats them (external
capabilities).  The MD5 content hash of the normalizer is embedded
concretely (RFC 1321 over the UTF-8 bytes of the input).
-/

/-- Parsed LLM analysis object: the keys the pipeline reads, each optional
because the parsed JSON may lack it (the code reads them with `.get` and a
default). -/
structure Analysis where
  score : Option Int
  tags : Option (List String)
  difficulty : Option String
  marketPotential : Option String
  deriving DecidableEq, Repr

/-- Canonical idea record flowing through the pipeline.  Fields the code
reads with `.get(key, "")` are plain strings (a missing key is
indistinguishable from `""` there); `timestamp`, `hash`, `raw_content`,
`analysis` and `analysis_timestamp` stay `Option` because the code
distinguishes absence (falsiness tests, `"analysis" in idea`, dynamic
defaults). -/
structure Idea where
  title : String
  description : String
  url : String
  source : String
  timestamp : Option String
  hash : Option String
  rawContent : Option String
  analysis : Option Analysis
  analysisTimestamp : Option String
  deriving DecidableEq, Repr

/-- Python truthiness of `idea.get("hash")`: `None` and `""` are falsy;
returns the hash when it is truthy. -/
def truthyHash (i : Idea) : Option String :=
  match i.hash with
  | none => none
  | some h => if h = "" then none else some h

/-- Exact deduplication stage of `_deduplicate_ideas`: builds
`hash_map` (an insertion-ordered dict keyed by the truthy hash) and returns
its values, i.e. the first occurrence of each truthy hash, in order;
ideas with no truthy hash are skipped.  `seen` is the set of keys already
in the dict. -/
def hashDedupAux (seen : List String) : List Idea → List Idea
  | [] => []
  | i :: t =>
    match truthyHash i with
    | none => hashDedupAux seen t
    | some h => if h ∈ seen then hashDedupAux seen t else i :: hashDedupAux (h :: seen) t

/-- Exact (hash-based) deduplication stage. -/
def hashDedup (ideas : List Idea) : List Idea :=
  hashDedupAux [] ideas

/-- Python string slice `s[:n]` (by characters). -/
def strTake (n : Nat) (s : String) : String :=
  String.mk (s.data.take n)

/-- Weighted similarity of `_deduplicate_ideas`:
`fuzz.ratio(candidate.title, unique.title) * 0.7 +
 fuzz.ratio(candidate.description[:200], unique.description[:200]) * 0.3`,
with the external fuzzy `ratio` passed as a parameter `r` and the float
arithmetic modelled exactly over ℚ. -/
def similarity (r : String → String → ℚ) (cand uniq : Idea) : ℚ :=
  r cand.title uniq.title * (7 / 10) +
    r (strTake 200 cand.description) (strTake 200 uniq.description) * (3 / 10)

/-- Fuzzy deduplication stage of `_deduplicate_ideas`: scan the candidates
in order, keeping an accepted list `acc`; a candidate is dropped when some
already-accepted idea has weighted similarity ≥ `thr * 100`
(`thr` = `similarity_threshold`, default 0.85), otherwise appended. -/
def fuzzyDedupAux (r : String → String → ℚ) (thr : ℚ) (acc : List Idea) :
    List Idea → List Idea
  | [] => acc
  | i :: t =>
    if acc.any (fun u => decide (thr * 100 ≤ similarity r i u)) then
      fuzzyDedupAux r thr acc t
    else
      fuzzyDedupAux r thr (acc ++ [i]) t

/-- Fuzzy deduplication stage, started from the empty accepted list. -/
def fuzzyDedup (r : String → String → ℚ) (thr : ℚ) (ideas : List Idea) : List Idea :=
  fuzzyDedupAux r thr [] ideas

/-- Full `_deduplicate_ideas`: empty guard, then the exact stage, then the
fuzzy stage. -/
def deduplicate (r : String → String → ℚ) (thr : ℚ) (ideas : List Idea) : List Idea :=
  if ideas.isEmpty then [] else fuzzyDedup r thr (hashDedup ideas)

/-- Reduce to a 32-bit word. -/
def m32 (x : Nat) : Nat := x % 4294967296

/-- 32-bit left rotation (x must be < 2^32, 0 ≤ n ≤ 32). -/
def rotl32 (x n : Nat) : Nat := m32 (x <<< n) ||| (x >>> (32 - n))

/-- MD5 sine-derived constant table (RFC 1321, `K[i] = floor(abs(sin(i+1)) * 2^32)`). -/
def md5K : List Nat :=
  [3614090360, 3905402710, 606105819, 3250441966, 4118548399, 1200080426, 2821735955,
   4249261313, 1770035416, 2336552879, 4294925233, 2304563134, 1804603682, 4254626195,
   2792965006, 1236535329, 4129170786, 3225465664, 643717713, 3921069994, 3593408605,
   38016083, 3634488961, 3889429448, 568446438, 3275163606, 4107603335, 1163531501,
   2850285829, 4243563512, 1735328473, 2368359562, 4294588738, 2272392833, 1839030562,
   4259657740, 2763975236, 1272893353, 4139469664, 3200236656, 681279174, 3936430074,
   3572445317, 76029189, 3654602809, 3873151461, 530742520, 3299628645, 4096336452,
   1126891415, 2878612391, 4237533241, 1700485571, 2399980690, 4293915773, 2240044497,
   1873313359, 4264355552, 2734768916, 1309151649, 4149444226, 3174756917, 718787259,
   3951481745]

/-- MD5 per-round shift amounts (RFC 1321). -/
def md5S : List Nat :=
  [7, 12, 17, 22, 7, 12, 17, 22, 7, 12, 17, 22, 7, 12, 17, 22,
   5, 9, 14, 20, 5, 9, 14, 20, 5, 9, 14, 20, 5, 9, 14, 20,
   4, 11, 16, 23, 4, 11, 16, 23, 4, 11, 16, 23, 4, 11, 16, 23,
   6, 10, 15, 21, 6, 10, 15, 21, 6, 10, 15, 21, 6, 10, 15, 21]

/-- MD5 round function for operation `i` (F, G, H, I of RFC 1321). -/
def md5F (i b c d : Nat) : Nat :=
  if i < 16 then (b &&& c) ||| ((b ^^^ 4294967295) &&& d)
  else if i < 32 then (d &&& b) ||| ((d ^^^ 4294967295) &&& c)
  else if i < 48 then b ^^^ c ^^^ d
  else c ^^^ (b ||| (d ^^^ 4294967295))

/-- MD5 message-word index for operation `i`. -/
def md5G (i : Nat) : Nat :=
  if i < 16 then i
  else if i < 32 then (5 * i + 1) % 16
  else if i < 48 then (3 * i + 5) % 16
  else (7 * i) % 16

/-- One MD5 operation on the running state `(a, b, c, d)` with the 16
message words `M`. -/
def md5Op (M : List Nat) (st : Nat × Nat × Nat × Nat) (i : Nat) : Nat × Nat × Nat × Nat :=
  match st with
  | (a, b, c, d) =>
    let x := m32 (a + md5F i b c d + md5K.getD i 0 + M.getD (md5G i) 0)
    (d, m32 (b + rotl32 x (md5S.getD i 0)), b, c)

/-- Process one 64-byte block (as 16 little-endian words) through the 64
MD5 operations and add the result to the incoming state. -/
def md5Block (st : Nat × Nat × Nat × Nat) (M : List Nat) : Nat × Nat × Nat × Nat :=
  match st, (List.range 64).foldl (md5Op M) st with
  | (a0, b0, c0, d0), (a, b, c, d) =>
    (m32 (a0 + a), m32 (b0 + b), m32 (c0 + c), m32 (d0 + d))

/-- Group a byte list into 4-byte little-endian words. -/
def bytesToWords : List Nat → List Nat
  | b0 :: b1 :: b2 :: b3 :: rest =>
      (b0 + 256 * b1 + 65536 * b2 + 16777216 * b3) :: bytesToWords rest
  | _ => []

/-- Split a list into `n` consecutive 64-byte chunks. -/
def chunks64 (n : Nat) (l : List Nat) : List (List Nat) :=
  match n with
  | 0 => []
  | k + 1 => l.take 64 :: chunks64 k (l.drop 64)

/-- Little-endian byte expansion of `x` on `n` bytes. -/
def leBytes : Nat → Nat → List Nat
  | 0, _ => []
  | n + 1, x => (x % 256) :: leBytes n (x / 256)

/-- MD5 padding: append `0x80`, zero bytes up to 56 mod 64, then the
64-bit little-endian bit length. -/
def md5Pad (msg : List Nat) : List Nat :=
  msg ++ [128] ++ List.replicate ((119 - msg.length % 64) % 64) 0 ++
    leBytes 8 (8 * msg.length)

/-- Hexadecimal digit (lowercase). -/
def hexDigit (n : Nat) : Char :=
  if n < 10 then Char.ofNat (48 + n) else Char.ofNat (87 + n)

/-- Two-digit lowercase hex of one byte. -/
def byteHex (b : Nat) : List Char := [hexDigit (b / 16), hexDigit (b % 16)]

/-- Little-endian hex rendering of one 32-bit word. -/
def wordLEHex (w : Nat) : List Char :=
  byteHex (w % 256) ++ byteHex (w / 256 % 256) ++ byteHex (w / 65536 % 256) ++
    byteHex (w / 16777216 % 256)

/-- MD5 digest (lowercase hex) of a byte sequence, RFC 1321. -/
def md5Bytes (msg : List Nat) : String :=
  let padded := md5Pad msg
  match ((chunks64 (padded.length / 64) padded).map bytesToWords).foldl md5Block
      (1732584193, 4023233417, 2562383102, 271733878) with
  | (a, b, c, d) =>
    String.mk (wordLEHex a ++ wordLEHex b ++ wordLEHex c ++ wordLEHex d)

/-- UTF-8 encoding of one character. -/
def utf8Bytes (c : Char) : List Nat :=
  let n := c.toNat
  if n < 128 then [n]
  else if n < 2048 then [192 + n / 64, 128 + n % 64]
  else if n < 65536 then [224 + n / 4096, 128 + n / 64 % 64, 128 + n % 64]
  else [240 + n / 262144, 128 + n / 4096 % 64, 128 + n / 64 % 64, 128 + n % 64]

/-- UTF-8 bytes of a string (Python `str.encode()`). -/
def strUTF8 (s : String) : List Nat := (s.data.map utf8Bytes).flatten

/-- `hashlib.md5(s.encode()).hexdigest()`. -/
def md5hex (s : String) : String := md5Bytes (strUTF8 s)

example : md5hex "" = "d41d8cd98f00b204e9800998ecf8427e" := by decide

example : md5hex "abc" = "900150983cd24fb0d6963f7d28e17f72" := by decide

/-- Raw source record as seen by `normalize_data`: an open mapping; the
three fields the normalizer reads (each possibly missing), plus the rest
of the mapping, which normalization only passes through into
`raw_content`. -/
structure RawRecord where
  title : Option String
  description : Option String
  url : Option String
  extra : List (String × String)
  deriving DecidableEq, Repr

/-- Embedding of `normalize_data` (src/scrapers/main.py): computes the
content hash `md5(title + description)` over fields defaulted to `""`,
and builds the canonical idea.  `dumps` stands for the external
`json.dumps` serialization of the raw record; `now` for
`datetime.now().isoformat()`. -/
def normalize_data (dumps : RawRecord → String) (now : String)
    (data : RawRecord) (source : String) : Idea :=
  { title := data.title.getD ""
    description := data.description.getD ""
    url := data.url.getD ""
    source := source
    timestamp := some now
    hash := some (md5hex (data.title.getD "" ++ data.description.getD ""))
    rawContent := some (dumps data)
    analysis := none
    analysisTimestamp := none }

/-- Outcome of one call to the generation capability
(`requests.post(.../api/generate, ...)`): the request itself may raise, or
return an HTTP status together with the `response` text field. -/
inductive GenResult where
  | netError : GenResult
  | success (status : Nat) (text : String) : GenResult
  deriving DecidableEq, Repr

/-- Index of the first occurrence of a character (Python `str.find`,
`none` for -1). -/
def findCharIdx (c : Char) : List Char → Option Nat
  | [] => none
  | x :: t => if x = c then some 0 else (findCharIdx c t).map (· + 1)

/-- Index of the last occurrence of a character (Python `str.rfind`,
`none` for -1). -/
def rfindCharIdx (c : Char) (l : List Char) : Option Nat :=
  match findCharIdx c l.reverse with
  | none => none
  | some k => some (l.length - 1 - k)

/-- Opening curly brace character. -/
def lbrace : Char := Char.ofNat 123

/-- Closing curly brace character. -/
def rbrace : Char := Char.ofNat 125

/-- JSON-candidate extraction of `_analyze_idea_with_llm`: the substring
of the response from the first opening brace to the last closing brace,
provided both exist and `json_end > json_start`
(`llm_response[json_start:json_end+1]`). -/
def extractJsonSubstr (s : String) : Option String :=
  match findCharIdx lbrace s.data, rfindCharIdx rbrace s.data with
  | some i, some j =>
      if i < j then some (String.mk ((s.data.drop i).take (j + 1 - i))) else none
  | _, _ => none

/-- Embedding of `_analyze_idea_with_llm`: `parse` stands for the external
`json.loads` (successful parse of an object or failure), `gen` for the
outcome of the generation call, `now` for `datetime.now().isoformat()`.
Every failure path returns the idea unchanged; only a status-200 response
whose extracted brace-delimited substring parses attaches `analysis` and
`analysis_timestamp`. -/
def analyzeIdea (parse : String → Option Analysis) (gen : GenResult) (now : String)
    (idea : Idea) : Idea :=
  match gen with
  | .netError => idea
  | .success status text =>
    if status ≠ 200 then idea
    else
      match extractJsonSubstr text with
      | none => idea
      | some js =>
        match parse js with
        | none => idea
        | some a => { idea with analysis := some a, analysisTimestamp := some now }

/-- Embedding of `_process_ideas_batch`: the ideas of a batch are analyzed
sequentially (call `k` sees the oracle values `gens k`, `nows k`) and every
idea is appended to the output, analyzed or not (the `except` arm appends
the unprocessed idea). -/
def processBatchAux (parse : String → Option Analysis) (gens : Nat → GenResult)
    (nows : Nat → String) : Nat → List Idea → List Idea
  | _, [] => []
  | k, i :: t =>
      analyzeIdea parse (gens k) (nows k) i :: processBatchAux parse gens nows (k + 1) t

/-- Batch processing started at call index 0. -/
def processBatch (parse : String → Option Analysis) (gens : Nat → GenResult)
    (nows : Nat → String) (ideas : List Idea) : List Idea :=
  processBatchAux parse gens nows 0 ideas

/-- Score read from a parsed analysis: `idea["analysis"].get("score", 0)`. -/
def analysisScore (a : Analysis) : Int := a.score.getD 0

/-- Relevance filter of `process_ideas`: keep exactly the ideas that carry
`analysis` and whose score (default 0) reaches `min_score_threshold`. -/
def relevantFilter (t : Int) (ideas : List Idea) : List Idea :=
  ideas.filter fun i =>
    match i.analysis with
    | none => false
    | some a => decide (t ≤ analysisScore a)

/-- Row of the SQLite `raw_ideas` table (the autoincrement `id` is not
modelled; `created_at` is the insertion time in seconds since the epoch,
standing for the `CURRENT_TIMESTAMP` default). -/
structure RawRow where
  title : String
  description : String
  url : String
  source : String
  timestamp : String
  hash : String
  rawContent : String
  createdAt : Nat
  deriving DecidableEq, Repr

/-- Values bound by `_store_raw_ideas_sqlite` for one idea whose
`raw_content` key is present with payload `rc`.  `timestamp` defaults to
the current time, `hash` to `""`.  (A present non-string `raw_content` is
first serialized by `json.dumps`; the model carries the resulting string
payload.) -/
def rawRowOfIdea (now : String) (nowSec : Nat) (i : Idea) (rc : String) : RawRow :=
  { title := i.title
    description := i.description
    url := i.url
    source := i.source
    timestamp := i.timestamp.getD now
    hash := i.hash.getD ""
    rawContent := rc
    createdAt := nowSec }

/-- Embedding of `_store_raw_ideas_sqlite`: per idea, when the
`raw_content` key is absent the conversion line
`idea["raw_content"] = json.dumps(idea["raw_content"])` raises `KeyError`
(subscript access — the `isinstance` guard used `.get` but the assignment
does not), the per-row `except` logs it and the row is skipped without
being counted; otherwise an `INSERT OR IGNORE` keyed by the UNIQUE `hash`
column — a row whose hash is already present is skipped
(`cursor.rowcount = 0`), else the row is appended and counted. -/
def sqliteStoreRawStep (now : String) (nowSec : Nat) (acc : List RawRow × Nat)
    (i : Idea) : List RawRow × Nat :=
  match i.rawContent with
  | none => acc
  | some rc =>
    let r := rawRowOfIdea now nowSec i rc
    if acc.1.any (fun row => row.hash == r.hash) then acc
    else (acc.1 ++ [r], acc.2 + 1)

/-- The loop of `_store_raw_ideas_sqlite` over the whole idea list. -/
def sqliteStoreRaw (now : String) (nowSec : Nat) (table : List RawRow)
    (ideas : List Idea) : List RawRow × Nat :=
  ideas.foldl (sqliteStoreRawStep now nowSec) (table, 0)

/-- Supabase `raw_ideas` row: the inserted idea record paired with its
`created_at` insertion time. -/
abbrev SupaRawRow := Idea × Nat

/-- Whether the idea record's keys all lie within the columns the
repository documents for the supabase `raw_ideas` table
(`_ensure_supabase_tables`: id, title, description, url, source,
timestamp, hash, raw_content, created_at): a present `analysis` or
`analysis_timestamp` key — as on processed ideas fed back through
`store_raw_ideas` by `main()` — falls outside them and makes the plain
insert error per row. -/
def supaRawInsertOk (i : Idea) : Bool :=
  !(i.analysis.isSome || i.analysisTimestamp.isSome)

/-- Embedding of `_store_raw_ideas_supabase`: a plain `.insert` per idea.
An idea whose keys fit the documented `raw_ideas` columns is inserted —
that table declares no uniqueness constraint on `hash`, so the insert
succeeds even on a repeated fingerprint, the row is appended,
`result.data` is non-empty and the count is incremented; an idea carrying
a key outside those columns makes the insert error, the per-row `except`
logs it and nothing is appended or counted.  (The `raw_content`
string-to-JSON conversion only reshapes that payload field and does not
affect row identity or counts.) -/
def supaStoreRawStep (nowSec : Nat) (acc : List SupaRawRow × Nat) (i : Idea) :
    List SupaRawRow × Nat :=
  if supaRawInsertOk i then (acc.1 ++ [(i, nowSec)], acc.2 + 1) else acc

/-- The loop of `_store_raw_ideas_supabase` over the whole idea list. -/
def supaStoreRaw (nowSec : Nat) (table : List SupaRawRow) (ideas : List Idea) :
    List SupaRawRow × Nat :=
  ideas.foldl (supaStoreRawStep nowSec) (table, 0)

/-- `store_raw_ideas` wrapper on the SQLite backend (`if not ideas: return 0`). -/
def store_raw_ideas_sqlite (now : String) (nowSec : Nat) (table : List RawRow)
    (ideas : List Idea) : List RawRow × Nat :=
  if ideas.isEmpty then (table, 0) else sqliteStoreRaw now nowSec table ideas

/-- `store_raw_ideas` wrapper on the Supabase backend. -/
def store_raw_ideas_supabase (nowSec : Nat) (table : List SupaRawRow)
    (ideas : List Idea) : List SupaRawRow × Nat :=
  if ideas.isEmpty then (table, 0) else supaStoreRaw nowSec table ideas

/-- Row of the SQLite `analyzed_ideas` table (autoincrement `id` not
modelled; `analysis` stands for the stored `json.dumps(analysis)`). -/
structure AnalyzedRow where
  title : String
  description : String
  url : String
  source : String
  timestamp : String
  hash : String
  analysis : Analysis
  score : Int
  tags : List String
  difficulty : String
  marketPotential : String
  deriving DecidableEq, Repr

/-- The empty JSON object, default of `idea.get("analysis", {})`. -/
def emptyAnalysis : Analysis := ⟨none, none, none, none⟩

/-- Values bound by `_store_analyzed_ideas_sqlite` for one idea, with the
code's defaults (`score` 0, `tags` `[]`, `difficulty` "medium",
`market_potential` "moderate"). -/
def analyzedRowOfIdea (now : String) (i : Idea) : AnalyzedRow :=
  let a := i.analysis.getD emptyAnalysis
  { title := i.title
    description := i.description
    url := i.url
    source := i.source
    timestamp := i.timestamp.getD now
    hash := i.hash.getD ""
    analysis := a
    score := a.score.getD 0
    tags := a.tags.getD []
    difficulty := a.difficulty.getD "medium"
    marketPotential := a.marketPotential.getD "moderate" }

/-- Embedding of `_store_analyzed_ideas_sqlite`: per idea an
`INSERT OR REPLACE` keyed by the UNIQUE `hash` column — any existing row
with the same hash is replaced (deleted, the fresh row appended), and
every executed row is counted (`cursor.rowcount > 0`). -/
def sqliteStoreAnalyzedStep (now : String) (acc : List AnalyzedRow × Nat)
    (i : Idea) : List AnalyzedRow × Nat :=
  let r := analyzedRowOfIdea now i
  (acc.1.filter (fun row => row.hash != r.hash) ++ [r], acc.2 + 1)

/-- The loop of `_store_analyzed_ideas_sqlite` over the whole idea list. -/
def sqliteStoreAnalyzed (now : String) (table : List AnalyzedRow)
    (ideas : List Idea) : List AnalyzedRow × Nat :=
  ideas.foldl (sqliteStoreAnalyzedStep now) (table, 0)

/-- `store_analyzed_ideas` wrapper on the SQLite backend: empty guard,
then the filter to ideas carrying `analysis`, then the backend insert. -/
def store_analyzed_ideas_sqlite (now : String) (table : List AnalyzedRow)
    (ideas : List Idea) : List AnalyzedRow × Nat :=
  if ideas.isEmpty then (table, 0)
  else
    let analyzed := ideas.filter fun i => i.analysis.isSome
    if analyzed.isEmpty then (table, 0)
    else sqliteStoreAnalyzed now table analyzed

/-- Calendar day of an epoch-seconds timestamp, standing for SQLite
`date(...)` on the stored ISO strings. -/
def dateOf (t : Nat) : Nat := t / 86400

/-- Embedding of `_cleanup_old_raw_ideas_sqlite`: the cutoff is
`datetime.now() - timedelta(days=days)` rendered as a calendar date, and
the DELETE removes the rows whose `created_at` has a strictly earlier
calendar date (`date(created_at) < date(cutoff)`); `cursor.rowcount`
counts them.  The `analyzed_ideas` table is not touched. -/
def sqliteCleanupOldRaw (nowSec days : Nat) (raw : List RawRow) :
    List RawRow × Nat :=
  let cutoff := nowSec - days * 86400
  (raw.filter fun r => !decide (dateOf r.createdAt < dateOf cutoff),
   (raw.filter fun r => decide (dateOf r.createdAt < dateOf cutoff)).length)

/-- Embedding of `_cleanup_old_raw_ideas_supabase`: the cutoff is the full
ISO timestamp of `now - days`, and the delete removes rows with
`created_at` strictly earlier (ISO-8601 order is chronological order);
the count is the number of deleted rows. -/
def supaCleanupOldRaw (nowSec days : Nat) (raw : List SupaRawRow) :
    List SupaRawRow × Nat :=
  let cutoff := nowSec - days * 86400
  (raw.filter fun r => !decide (r.2 < cutoff),
   (raw.filter fun r => decide (r.2 < cutoff)).length)

/-- The two tables of the SQLite database a cleanup run can observe
(`users` and `feedback` play no role in the claims). -/
structure SqliteDB where
  rawIdeas : List RawRow
  analyzedIdeas : List AnalyzedRow
  deriving DecidableEq, Repr

/-- `cleanup_old_raw_ideas` on the SQLite backend, over the whole
database state: the DELETE statement touches only `raw_ideas`. -/
def cleanup_old_raw_ideas_sqlite (nowSec days : Nat) (db : SqliteDB) :
    SqliteDB × Nat :=
  let res := sqliteCleanupOldRaw nowSec days db.rawIdeas
  (⟨res.1, db.analyzedIdeas⟩, res.2)

/-- The two credentials `_init_supabase` reads from the environment. -/
structure SupabaseEnv where
  url : Option String
  key : Option String
  deriving DecidableEq, Repr

/-- Python falsiness of an environment variable (`os.environ.get`):
missing or empty. -/
def isFalsyOpt (o : Option String) : Bool := o.getD "" == ""

/-- Embedding of `DatabaseManager.__init__` with `_init_supabase` and
`_init_sqlite` (src/database/store.py).  `cfgType` is
`config.get("type", "sqlite")`; `createClientOk` models whether
`create_client` succeeds; `sqliteOk` models whether SQLite initialization
succeeds.  On the supabase path, missing/empty credentials raise a
`ValueError` inside the same `try`, and any failure there falls back to
`_init_sqlite` with `db_type = "sqlite"`; a SQLite initialization failure
is re-raised and propagates out of the constructor.  The result is the
final `db_type` on success, an error otherwise. -/
def initDatabaseManager (cfgType : Option String) (env : SupabaseEnv)
    (createClientOk sqliteOk : Bool) : Except String String :=
  let dbType := cfgType.getD "sqlite"
  if dbType == "supabase" then
    if isFalsyOpt env.url || isFalsyOpt env.key || !createClientOk then
      if sqliteOk then .ok "sqlite" else .error "sqlite initialization failed"
    else .ok "supabase"
  else if sqliteOk then .ok "sqlite" else .error "sqlite initialization failed"

/-- Idea with only the deduplication-relevant fields set, used in
concrete instantiations. -/
def sampleIdea (t d : String) (h : Option String) (a : Option Analysis) : Idea :=
  { title := t, description := d, url := "", source := "", timestamp := none,
    hash := h, rawContent := none, analysis := a, analysisTimestamp := none }

example :
    deduplicate (fun _ _ => 0) (85 / 100)
      [sampleIdea "a" "" (some "h1") none, sampleIdea "b" "" (some "h1") none] =
      [sampleIdea "a" "" (some "h1") none] := by
  decide

theorem fuzzyDedupAux_append_singleton (r : String → String → ℚ) (thr : ℚ)
    (c : Idea) (l : List Idea) :
    ∀ acc, fuzzyDedupAux r thr acc (l ++ [c]) =
      if (fuzzyDedupAux r thr acc l).any
          (fun u => decide (thr * 100 ≤ similarity r c u)) then
        fuzzyDedupAux r thr acc l
      else fuzzyDedupAux r thr acc l ++ [c] := by
  induction l with
  | nil => intro acc; simp [fuzzyDedupAux]
  | cons x t ih =>
      intro acc
      simp only [List.cons_append, fuzzyDedupAux]
      split <;> exact ih _

theorem fuzzyDedupAux_eq_append (r : String → String → ℚ) (thr : ℚ)
    (l : List Idea) :
    ∀ acc, ∃ s, fuzzyDedupAux r thr acc l = acc ++ s ∧ s.Sublist l := by
  induction l with
  | nil => intro acc; exact ⟨[], by simp [fuzzyDedupAux]⟩
  | cons x t ih =>
      intro acc
      simp only [fuzzyDedupAux]
      split
      · obtain ⟨s, hs, hsub⟩ := ih acc
        exact ⟨s, hs, hsub.cons x⟩
      · obtain ⟨s, hs, hsub⟩ := ih (acc ++ [x])
        exact ⟨x :: s, by simpa using hs, hsub.cons₂ x⟩

theorem fuzzyDedup_sublist (r : String → String → ℚ) (thr : ℚ) (l : List Idea) :
    (fuzzyDedup r thr l).Sublist l := by
  obtain ⟨s, hs, hsub⟩ := fuzzyDedupAux_eq_append r thr l []
  simpa [fuzzyDedup, hs] using hsub

/-- Dissimilarity relation left on the accepted list by the fuzzy stage:
the later idea does not reach the similarity threshold against the earlier
one. -/
def dissim (r : String → String → ℚ) (thr : ℚ) (a b : Idea) : Prop :=
  ¬ thr * 100 ≤ similarity r b a

theorem fuzzyDedupAux_pairwise (r : String → String → ℚ) (thr : ℚ)
    (l : List Idea) :
    ∀ acc, acc.Pairwise (dissim r thr) →
      (fuzzyDedupAux r thr acc l).Pairwise (dissim r thr) := by
  induction l with
  | nil => intro acc h; exact h
  | cons x t ih =>
      intro acc hacc
      simp only [fuzzyDedupAux]
      split
      · exact ih acc hacc
      · rename_i hany
        refine ih (acc ++ [x]) ?_
        rw [List.pairwise_append]
        refine ⟨hacc, List.pairwise_singleton _ _, ?_⟩
        intro u hu b hb
        rw [List.mem_singleton] at hb
        subst hb
        intro hle
        exact hany (List.any_eq_true.mpr ⟨u, hu, by simpa using hle⟩)

theorem fuzzyDedupAux_of_pairwise (r : String → String → ℚ) (thr : ℚ)
    (l : List Idea) :
    ∀ acc, (acc ++ l).Pairwise (dissim r thr) →
      fuzzyDedupAux r thr acc l = acc ++ l := by
  induction l with
  | nil => intro acc _; simp [fuzzyDedupAux]
  | cons x t ih =>
      intro acc hp
      simp only [fuzzyDedupAux]
      have hnot : acc.any (fun u => decide (thr * 100 ≤ similarity r x u)) = false := by
        rw [List.any_eq_false]
        intro u hu
        have := (List.pairwise_append.mp hp).2.2 u hu x (by simp)
        simpa [dissim] using this
      rw [hnot]
      simp only [Bool.false_eq_true, if_false]
      have : ((acc ++ [x]) ++ t).Pairwise (dissim r thr) := by
        simpa using hp
      rw [ih (acc ++ [x]) this]
      simp

theorem hashDedupAux_mem (l : List Idea) :
    ∀ seen, ∀ i ∈ hashDedupAux seen l, ∃ h, truthyHash i = some h ∧ h ∉ seen := by
  induction l with
  | nil => intro seen i hi; simp [hashDedupAux] at hi
  | cons x t ih =>
      intro seen i hi
      simp only [hashDedupAux] at hi
      revert hi
      cases hx : truthyHash x with
      | none => exact fun hi => ih seen i hi
      | some h =>
          by_cases hmem : h ∈ seen
          · simp only [if_pos hmem]
            exact fun hi => ih seen i hi
          · simp only [if_neg hmem, List.mem_cons]
            rintro (rfl | hi)
            · exact ⟨h, hx, hmem⟩
            · obtain ⟨h2, hh2, hns⟩ := ih (h :: seen) i hi
              exact ⟨h2, hh2, fun hc => hns (List.mem_cons_of_mem _ hc)⟩

theorem hashDedupAux_pairwise (l : List Idea) :
    ∀ seen, (hashDedupAux seen l).Pairwise
      (fun a b => truthyHash a ≠ truthyHash b) := by
  induction l with
  | nil => intro seen; simp [hashDedupAux]
  | cons x t ih =>
      intro seen
      simp only [hashDedupAux]
      cases hx : truthyHash x with
      | none => exact ih seen
      | some h =>
          by_cases hmem : h ∈ seen
          · simp only [if_pos hmem]; exact ih seen
          · simp only [if_neg hmem]
            refine List.Pairwise.cons ?_ (ih (h :: seen))
            intro b hb
            obtain ⟨h2, hh2, hns⟩ := hashDedupAux_mem t (h :: seen) b hb
            rw [hx, hh2]
            intro hc
            injection hc with hc
            exact hns (hc ▸ List.mem_cons_self h seen)

theorem hashDedupAux_id (l : List Idea) :
    ∀ seen, (∀ i ∈ l, ∃ h, truthyHash i = some h ∧ h ∉ seen) →
      l.Pairwise (fun a b => truthyHash a ≠ truthyHash b) →
      hashDedupAux seen l = l := by
  induction l with
  | nil => intro seen _ _; rfl
  | cons x t ih =>
      intro seen hall hp
      obtain ⟨h, hx, hns⟩ := hall x (by simp)
      simp only [hashDedupAux, hx, if_neg hns]
      congr 1
      refine ih (h :: seen) ?_ hp.of_cons
      intro i hi
      obtain ⟨h2, hh2, hns2⟩ := hall i (List.mem_cons_of_mem _ hi)
      refine ⟨h2, hh2, ?_⟩
      rw [List.mem_cons]
      rintro (rfl | hc)
      · have := List.rel_of_pairwise_cons hp hi
        rw [hx, hh2] at this
        exact this rfl
      · exact hns2 hc

theorem hashDedupAux_all_none (l : List Idea) :
    ∀ seen, (∀ i ∈ l, truthyHash i = none) → hashDedupAux seen l = [] := by
  induction l with
  | nil => intro _ _; rfl
  | cons x t ih =>
      intro seen hall
      simp only [hashDedupAux, hall x (by simp)]
      exact ih seen fun i hi => hall i (List.mem_cons_of_mem _ hi)

theorem hashDedupAux_same_hash (t : List Idea) (h : String) :
    ∀ seen, h ∈ seen → (∀ j ∈ t, j.hash = some h) → hashDedupAux seen t = [] := by
  induction t with
  | nil => intro _ _ _; rfl
  | cons x t ih =>
      intro seen hseen hall
      by_cases hh : h = ""
      · have hx : truthyHash x = none := by simp [truthyHash, hall x (by simp), hh]
        simp only [hashDedupAux, hx]
        exact ih seen hseen fun j hj => hall j (List.mem_cons_of_mem _ hj)
      · have hx : truthyHash x = some h := by simp [truthyHash, hall x (by simp), hh]
        simp only [hashDedupAux, hx, if_pos hseen]
        exact ih seen hseen fun j hj => hall j (List.mem_cons_of_mem _ hj)

/-- C1: the fuzzy deduplication stage scans the exact-stage survivors in
their original order and drops a candidate if and only if, for some idea
already accepted into the unique set, the weighted similarity
`0.7 * ratio(candidate title, accepted title) +
 0.3 * ratio(first 200 characters of the descriptions)` is at least
`similarity_threshold * 100`; otherwise the candidate is appended to the
accepted set (first-seen wins, comparisons only against accepted ideas). -/
theorem fuzzy_stage_scan_characterization
    (r : String → String → ℚ) (thr : ℚ) (l : List Idea) (c : Idea) :
    (fuzzyDedup r thr (l ++ [c]) =
      if (fuzzyDedup r thr l).any (fun u =>
          decide (thr * 100 ≤
            r c.title u.title * (7 / 10) +
              r (strTake 200 c.description) (strTake 200 u.description) * (3 / 10))) then
        fuzzyDedup r thr l
      else fuzzyDedup r thr l ++ [c]) ∧
    (fuzzyDedup r thr l).Sublist l :=
  ⟨fuzzyDedupAux_append_singleton r thr c l [], fuzzyDedup_sublist r thr l⟩

/-- C7: on a non-empty input whose ideas all carry the same non-empty
fingerprint the deduplicator returns exactly the first idea, and the
deduplicator is idempotent on every input. -/
theorem dedup_same_fingerprint_and_idempotent :
    (∀ (r : String → String → ℚ) (thr : ℚ) (i : Idea) (rest : List Idea) (h : String),
        h ≠ "" → (∀ j ∈ i :: rest, j.hash = some h) →
        deduplicate r thr (i :: rest) = [i]) ∧
    (∀ (r : String → String → ℚ) (thr : ℚ) (x : List Idea),
        deduplicate r thr (deduplicate r thr x) = deduplicate r thr x) := by
  constructor
  · intro r thr i rest h hne hall
    have hx : truthyHash i = some h := by simp [truthyHash, hall i (by simp), hne]
    have h2 : hashDedupAux [h] rest = [] :=
      hashDedupAux_same_hash rest h [h] (by simp)
        (fun j hj => hall j (List.mem_cons_of_mem _ hj))
    have h1 : hashDedup (i :: rest) = [i] := by
      simp [hashDedup, hashDedupAux, hx, h2]
    simp [deduplicate, h1, fuzzyDedup, fuzzyDedupAux]
  · intro r thr x
    by_cases he : x.isEmpty
    · simp [deduplicate, he]
    · have hd : deduplicate r thr x = fuzzyDedupAux r thr [] (hashDedupAux [] x) := by
        simp [deduplicate, he, fuzzyDedup, hashDedup]
      by_cases hde : (deduplicate r thr x).isEmpty
      · rw [List.isEmpty_iff.mp hde]
        simp [deduplicate]
      · have hsub : (deduplicate r thr x).Sublist (hashDedupAux [] x) := by
          obtain ⟨s, hs, hsubs⟩ := fuzzyDedupAux_eq_append r thr (hashDedupAux [] x) []
          rw [hd, hs]
          simpa using hsubs
        have hmem : ∀ j ∈ deduplicate r thr x, ∃ h, truthyHash j = some h ∧ h ∉ ([] : List String) := by
          intro j hj
          exact hashDedupAux_mem x [] j (hsub.subset hj)
        have hpw : (deduplicate r thr x).Pairwise (fun a b => truthyHash a ≠ truthyHash b) :=
          List.Pairwise.sublist hsub (hashDedupAux_pairwise x [])
        have hhd : hashDedupAux [] (deduplicate r thr x) = deduplicate r thr x :=
          hashDedupAux_id (deduplicate r thr x) [] hmem hpw
        have hfz : (deduplicate r thr x).Pairwise (dissim r thr) := by
          rw [hd]
          exact fuzzyDedupAux_pairwise r thr (hashDedupAux [] x) [] List.Pairwise.nil
        have hfd : fuzzyDedupAux r thr [] (deduplicate r thr x) = deduplicate r thr x := by
          have := fuzzyDedupAux_of_pairwise r thr (deduplicate r thr x) [] (by simpa using hfz)
          simpa using this
        have hde2 : (deduplicate r thr x).isEmpty = false := by
          simpa using hde
        rw [deduplicate, hde2]
        simp only [Bool.false_eq_true, if_false, hashDedup, fuzzyDedup]
        rw [hhd]
        exact hfd

/-- Witness instantiation for the C7 theorem at concrete inputs. -/
theorem dedup_same_fingerprint_and_idempotent_witness :
    deduplicate (fun _ _ => 0) (85 / 100)
        [sampleIdea "a" "" (some "k") none, sampleIdea "b" "" (some "k") none] =
      [sampleIdea "a" "" (some "k") none] ∧
    deduplicate (fun _ _ => 0) (85 / 100)
        (deduplicate (fun _ _ => 0) (85 / 100)
          [sampleIdea "a" "" (some "k") none, sampleIdea "b" "" none none]) =
      deduplicate (fun _ _ => 0) (85 / 100)
        [sampleIdea "a" "" (some "k") none, sampleIdea "b" "" none none] :=
  ⟨dedup_same_fingerprint_and_idempotent.1 (fun _ _ => 0) (85 / 100)
      (sampleIdea "a" "" (some "k") none) [sampleIdea "b" "" (some "k") none] "k"
      (by decide) (by decide),
   dedup_same_fingerprint_and_idempotent.2 (fun _ _ => 0) (85 / 100)
      [sampleIdea "a" "" (some "k") none, sampleIdea "b" "" none none]⟩

/-- C9: an idea whose `hash` is absent or empty is dropped by the exact
stage, never reaches the fuzzy stage or the output, and an input with no
truthy hash deduplicates to the empty list. -/
theorem dedup_untruthy_hash_dropped :
    (∀ (r : String → String → ℚ) (thr : ℚ) (ideas : List Idea) (i : Idea),
        i.hash = none ∨ i.hash = some "" →
        i ∉ hashDedup ideas ∧ i ∉ deduplicate r thr ideas) ∧
    (∀ (r : String → String → ℚ) (thr : ℚ) (ideas : List Idea),
        (∀ i ∈ ideas, i.hash = none ∨ i.hash = some "") →
        deduplicate r thr ideas = []) := by
  have htr : ∀ i : Idea, i.hash = none ∨ i.hash = some "" → truthyHash i = none := by
    intro i hi
    rcases hi with h | h <;> simp [truthyHash, h]
  constructor
  · intro r thr ideas i hi
    have hn := htr i hi
    have hmain : i ∉ hashDedup ideas := by
      intro hmem
      obtain ⟨h, hh, _⟩ := hashDedupAux_mem ideas [] i hmem
      rw [hn] at hh
      cases hh
    refine ⟨hmain, ?_⟩
    intro hmem
    by_cases he : ideas.isEmpty
    · simp [deduplicate, he] at hmem
    · have hmem2 : i ∈ hashDedup ideas := by
        have hsub := fuzzyDedup_sublist r thr (hashDedup ideas)
        apply hsub.subset
        simpa [deduplicate, he] using hmem
      exact hmain hmem2
  · intro r thr ideas hall
    by_cases he : ideas.isEmpty
    · simp [deduplicate, he]
    · have h0 : hashDedupAux [] ideas = [] :=
        hashDedupAux_all_none ideas [] (fun i hi => htr i (hall i hi))
      simp [deduplicate, he, hashDedup, h0, fuzzyDedup, fuzzyDedupAux]

/-- Witness instantiation for the C9 theorem at concrete inputs. -/
theorem dedup_untruthy_hash_dropped_witness :
    (sampleIdea "a" "" none none ∉
        hashDedup [sampleIdea "a" "" none none, sampleIdea "b" "" (some "") none]) ∧
    deduplicate (fun _ _ => 0) (85 / 100)
        [sampleIdea "a" "" none none, sampleIdea "b" "" (some "") none] = [] :=
  ⟨(dedup_untruthy_hash_dropped.1 (fun _ _ => 0) (85 / 100)
      [sampleIdea "a" "" none none, sampleIdea "b" "" (some "") none]
      (sampleIdea "a" "" none none) (by decide)).1,
   dedup_untruthy_hash_dropped.2 (fun _ _ => 0) (85 / 100)
      [sampleIdea "a" "" none none, sampleIdea "b" "" (some "") none] (by decide)⟩

theorem processBatchAux_length (parse : String → Option Analysis)
    (gens : Nat → GenResult) (nows : Nat → String) (ideas : List Idea) :
    ∀ m, (processBatchAux parse gens nows m ideas).length = ideas.length := by
  induction ideas with
  | nil => intro m; rfl
  | cons x t ih => intro m; simp [processBatchAux, ih (m + 1)]

theorem processBatchAux_getElem (parse : String → Option Analysis)
    (gens : Nat → GenResult) (nows : Nat → String) (ideas : List Idea) :
    ∀ m k, (processBatchAux parse gens nows m ideas)[k]? =
      (ideas[k]?).map (fun i => analyzeIdea parse (gens (m + k)) (nows (m + k)) i) := by
  induction ideas with
  | nil => intro m k; simp [processBatchAux]
  | cons x t ih =>
      intro m k
      cases k with
      | zero => simp [processBatchAux]
      | succ k =>
          have hmk : m + 1 + k = m + (k + 1) := by omega
          have := ih (m + 1) k
          rw [hmk] at this
          simpa [processBatchAux] using this

/-- C2: the per-idea analysis step never raises out of the batch — on a
network error, a non-success status, a response with no brace-delimited
substring, or a substring that fails to parse, the idea is returned
unchanged (hence without an `analysis` key when it had none); on a
status-200 response whose extracted substring parses, the parsed object is
attached as `analysis` together with `analysis_timestamp`; and the batch
processor returns a list of the same length and order as its input. -/
theorem analyzer_isolation_and_attachment :
    (∀ (parse : String → Option Analysis) (now : String) (idea : Idea),
        analyzeIdea parse .netError now idea = idea) ∧
    (∀ (parse : String → Option Analysis) (now : String) (idea : Idea) (st : Nat)
        (txt : String), st ≠ 200 →
        analyzeIdea parse (.success st txt) now idea = idea) ∧
    (∀ (parse : String → Option Analysis) (now : String) (idea : Idea) (txt : String),
        extractJsonSubstr txt = none →
        analyzeIdea parse (.success 200 txt) now idea = idea) ∧
    (∀ (parse : String → Option Analysis) (now : String) (idea : Idea)
        (txt js : String), extractJsonSubstr txt = some js → parse js = none →
        analyzeIdea parse (.success 200 txt) now idea = idea) ∧
    (∀ (parse : String → Option Analysis) (now : String) (idea : Idea)
        (txt js : String) (a : Analysis),
        extractJsonSubstr txt = some js → parse js = some a →
        analyzeIdea parse (.success 200 txt) now idea =
          { idea with analysis := some a, analysisTimestamp := some now }) ∧
    (∀ (parse : String → Option Analysis) (gens : Nat → GenResult)
        (nows : Nat → String) (ideas : List Idea),
        (processBatch parse gens nows ideas).length = ideas.length ∧
        ∀ k : Nat, (processBatch parse gens nows ideas)[k]? =
          (ideas[k]?).map (fun i => analyzeIdea parse (gens k) (nows k) i)) := by
  refine ⟨?_, ?_, ?_, ?_, ?_, ?_⟩
  · intro parse now idea; rfl
  · intro parse now idea st txt hst; simp [analyzeIdea, hst]
  · intro parse now idea txt h; simp [analyzeIdea, h]
  · intro parse now idea txt js h hp; simp [analyzeIdea, h, hp]
  · intro parse now idea txt js a h hp; simp [analyzeIdea, h, hp]
  · intro parse gens nows ideas
    exact ⟨processBatchAux_length parse gens nows ideas 0,
      fun k => by simpa using processBatchAux_getElem parse gens nows ideas 0 k⟩

/-- Parse oracle used in concrete instantiations: recognizes exactly the
brace-delimited string `{score}` and yields a fixed analysis object. -/
def sampleParse : String → Option Analysis :=
  fun s => if s == "\x7bscore\x7d" then some ⟨some 42, none, none, none⟩ else none

/-- Witness instantiation for the C2 theorem at concrete inputs. -/
theorem analyzer_isolation_and_attachment_witness :
    analyzeIdea sampleParse (.success 500 "x") "T" (sampleIdea "t" "d" none none) =
      sampleIdea "t" "d" none none ∧
    analyzeIdea sampleParse (.success 200 "no braces here") "T"
        (sampleIdea "t" "d" none none) = sampleIdea "t" "d" none none ∧
    analyzeIdea sampleParse (.success 200 "a\x7bscore\x7db") "T"
        (sampleIdea "t" "d" none none) =
      { sampleIdea "t" "d" none none with
          analysis := some ⟨some 42, none, none, none⟩,
          analysisTimestamp := some "T" } :=
  ⟨analyzer_isolation_and_attachment.2.1 sampleParse "T" (sampleIdea "t" "d" none none)
      500 "x" (by decide),
   analyzer_isolation_and_attachment.2.2.1 sampleParse "T" (sampleIdea "t" "d" none none)
      "no braces here" (by decide),
   analyzer_isolation_and_attachment.2.2.2.2.1 sampleParse "T"
      (sampleIdea "t" "d" none none) "a\x7bscore\x7db" "\x7bscore\x7d"
      ⟨some 42, none, none, none⟩ (by decide) (by decide)⟩

/-- C3: the relevance filter returns exactly the subsequence of ideas that
carry `analysis` with score at least the threshold, in input order; and
when every attached score lies in 0–100, threshold 0 retains all analyzed
ideas and threshold 101 retains none. -/
theorem relevance_filter_subsequence :
    (∀ (t : Int) (ideas : List Idea), (relevantFilter t ideas).Sublist ideas) ∧
    (∀ (t : Int) (ideas : List Idea) (i : Idea),
        i ∈ relevantFilter t ideas ↔
          i ∈ ideas ∧ ∃ a, i.analysis = some a ∧ t ≤ analysisScore a) ∧
    (∀ ideas : List Idea,
        (∀ i ∈ ideas, 0 ≤ analysisScore (i.analysis.getD emptyAnalysis) ∧
          analysisScore (i.analysis.getD emptyAnalysis) ≤ 100) →
        relevantFilter 0 ideas = ideas.filter (fun i => i.analysis.isSome) ∧
        relevantFilter 101 ideas = []) := by
  refine ⟨?_, ?_, ?_⟩
  · intro t ideas; exact List.filter_sublist ideas
  · intro t ideas i
    rw [relevantFilter, List.mem_filter]
    refine and_congr_right fun _ => ?_
    cases h : i.analysis <;> simp [h]
  · intro ideas hb
    constructor
    · refine List.filter_congr ?_
      intro i hi
      cases h : i.analysis with
      | none => simp [h]
      | some a =>
          have := (hb i hi).1
          rw [h] at this
          simp only [Option.getD_some] at this
          simp [h, this]
    · rw [relevantFilter, List.filter_eq_nil_iff]
      intro i hi
      cases h : i.analysis with
      | none => simp [h]
      | some a =>
          have := (hb i hi).2
          rw [h] at this
          simp only [Option.getD_some] at this
          simp [h]
          omega

/-- Witness instantiation for the C3 theorem at concrete inputs. -/
theorem relevance_filter_subsequence_witness :
    relevantFilter 0
        [sampleIdea "a" "" none (some ⟨some 90, none, none, none⟩),
         sampleIdea "b" "" none none] =
      [sampleIdea "a" "" none (some ⟨some 90, none, none, none⟩)] ∧
    relevantFilter 101
        [sampleIdea "a" "" none (some ⟨some 90, none, none, none⟩),
         sampleIdea "b" "" none none] = [] := by
  have h := relevance_filter_subsequence.2.2
    [sampleIdea "a" "" none (some ⟨some 90, none, none, none⟩),
     sampleIdea "b" "" none none] (by decide)
  exact ⟨by rw [h.1]; decide, h.2⟩

/-- C6: constructing the manager with backend type "supabase" and a
missing credential (or any other supabase initialization failure) does not
abort — it falls back to the SQLite backend and completes with `db_type`
equal to "sqlite" — whereas a failure to initialize the SQLite backend
propagates as an exception, both on the fallback path and on the direct
SQLite path. -/
theorem database_manager_fallback_and_fatal :
    (∀ (env : SupabaseEnv) (createOk : Bool),
        (isFalsyOpt env.url || isFalsyOpt env.key || !createOk) = true →
        initDatabaseManager (some "supabase") env createOk true = .ok "sqlite") ∧
    (∀ (env : SupabaseEnv) (createOk : Bool),
        (isFalsyOpt env.url || isFalsyOpt env.key || !createOk) = true →
        initDatabaseManager (some "supabase") env createOk false =
          .error "sqlite initialization failed") ∧
    (∀ (cfgType : Option String) (env : SupabaseEnv) (createOk : Bool),
        cfgType.getD "sqlite" ≠ "supabase" →
        initDatabaseManager cfgType env createOk false =
          .error "sqlite initialization failed") ∧
    (∀ (env : SupabaseEnv) (createOk : Bool),
        env.url = none ∨ env.key = none →
        (isFalsyOpt env.url || isFalsyOpt env.key || !createOk) = true) := by
  refine ⟨?_, ?_, ?_, ?_⟩
  · intro env createOk h
    simp [initDatabaseManager, h]
  · intro env createOk h
    simp [initDatabaseManager, h]
  · intro cfgType env createOk h
    have hb : (cfgType.getD "sqlite" == "supabase") = false := by
      simpa using h
    simp [initDatabaseManager, hb]
  · intro env createOk h
    rcases h with h | h <;> simp [isFalsyOpt, h]

/-- Witness instantiation for the C6 theorem at concrete inputs. -/
theorem database_manager_fallback_and_fatal_witness :
    initDatabaseManager (some "supabase") ⟨none, some "key"⟩ true true = .ok "sqlite" ∧
    initDatabaseManager (some "supabase") ⟨none, some "key"⟩ true false =
      .error "sqlite initialization failed" ∧
    initDatabaseManager (some "sqlite") ⟨some "url", some "key"⟩ true false =
      .error "sqlite initialization failed" :=
  ⟨database_manager_fallback_and_fatal.1 ⟨none, some "key"⟩ true (by decide),
   database_manager_fallback_and_fatal.2.1 ⟨none, some "key"⟩ true (by decide),
   database_manager_fallback_and_fatal.2.2.1 (some "sqlite") ⟨some "url", some "key"⟩
      true (by decide)⟩

theorem foldl_storeAnalyzed_snd (now : String) (ideas : List Idea) :
    ∀ (tbl : List AnalyzedRow) (c : Nat),
      (ideas.foldl (sqliteStoreAnalyzedStep now) (tbl, c)).2 = c + ideas.length := by
  induction ideas with
  | nil => intro tbl c; simp
  | cons x t ih =>
      intro tbl c
      rw [List.foldl_cons,
        show sqliteStoreAnalyzedStep now (tbl, c) x =
          (tbl.filter (fun row => row.hash != (analyzedRowOfIdea now x).hash) ++
            [analyzedRowOfIdea now x], c + 1) from rfl, ih]
      simp only [List.length_cons]
      omega

theorem filter_ne_then_eq (h : String) (l : List AnalyzedRow) :
    (l.filter (fun row => row.hash != h)).filter (fun row => row.hash == h) = [] := by
  induction l with
  | nil => rfl
  | cons x t ih =>
      cases hx : x.hash == h <;> simp [List.filter_cons, bne, hx, ih]

/-- C10: on the SQLite backend `store_analyzed` counts every executed row,
so the returned count is the number of input ideas carrying `analysis`
(overwrites included); calling it twice with the same analyzed idea
returns 1 both times while the table ends up holding exactly one row for
that fingerprint. -/
theorem store_analyzed_insert_or_replace :
    (∀ (now : String) (table : List AnalyzedRow) (ideas : List Idea),
        (store_analyzed_ideas_sqlite now table ideas).2 =
          (ideas.filter (fun i => i.analysis.isSome)).length) ∧
    (∀ (now now2 : String) (table : List AnalyzedRow) (i : Idea),
        i.analysis.isSome →
        (store_analyzed_ideas_sqlite now table [i]).2 = 1 ∧
        (store_analyzed_ideas_sqlite now2
            (store_analyzed_ideas_sqlite now table [i]).1 [i]).2 = 1 ∧
        ((store_analyzed_ideas_sqlite now2
            (store_analyzed_ideas_sqlite now table [i]).1 [i]).1.filter
          (fun row => row.hash == i.hash.getD "")).length = 1) := by
  constructor
  · intro now table ideas
    by_cases he : ideas.isEmpty
    · rw [List.isEmpty_iff.mp he]
      rfl
    · have he2 : ideas.isEmpty = false := by simpa using he
      by_cases ha : (ideas.filter (fun i => i.analysis.isSome)).isEmpty
      · rw [store_analyzed_ideas_sqlite, he2]
        simp only [Bool.false_eq_true, if_false, ha, if_true]
        rw [List.isEmpty_iff.mp ha]
        rfl
      · have ha2 : (ideas.filter (fun i => i.analysis.isSome)).isEmpty = false := by
          simpa using ha
        rw [store_analyzed_ideas_sqlite, he2]
        simp only [Bool.false_eq_true, if_false, ha2]
        rw [sqliteStoreAnalyzed, foldl_storeAnalyzed_snd]
        omega
  · intro now now2 table i hi
    have hfi : [i].filter (fun j => j.analysis.isSome) = [i] := by simp [hi]
    have hstep : ∀ (n : String) (tbl : List AnalyzedRow),
        store_analyzed_ideas_sqlite n tbl [i] =
          (tbl.filter (fun row => row.hash != (analyzedRowOfIdea n i).hash) ++
            [analyzedRowOfIdea n i], 1) := by
      intro n tbl
      rw [store_analyzed_ideas_sqlite]
      simp only [List.isEmpty_cons, Bool.false_eq_true, if_false]
      rw [show [i].filter (fun j => j.analysis.isSome) = [i] from by simp [hi]]
      simp only [List.isEmpty_cons, Bool.false_eq_true, if_false]
      rfl
    refine ⟨by rw [hstep], by rw [hstep, hstep], ?_⟩
    rw [hstep, hstep]
    have hh1 : (analyzedRowOfIdea now i).hash = i.hash.getD "" := rfl
    have hh2 : (analyzedRowOfIdea now2 i).hash = i.hash.getD "" := rfl
    simp only [List.filter_append, List.length_append, hh1, hh2]
    rw [filter_ne_then_eq]
    have he : ((analyzedRowOfIdea now i).hash != i.hash.getD "") = false := by
      simp [bne, hh1]
    have he2 : ((analyzedRowOfIdea now2 i).hash == i.hash.getD "") = true := by
      simp [hh2]
    simp [List.filter_cons, he, he2]

/-- Witness instantiation for the C10 theorem at concrete inputs. -/
theorem store_analyzed_insert_or_replace_witness :
    (store_analyzed_ideas_sqlite "t1" []
        [sampleIdea "a" "" (some "fp") (some ⟨some 80, none, none, none⟩)]).2 = 1 ∧
    (store_analyzed_ideas_sqlite "t2"
        (store_analyzed_ideas_sqlite "t1" []
          [sampleIdea "a" "" (some "fp") (some ⟨some 80, none, none, none⟩)]).1
        [sampleIdea "a" "" (some "fp") (some ⟨some 80, none, none, none⟩)]).2 = 1 ∧
    ((store_analyzed_ideas_sqlite "t2"
        (store_analyzed_ideas_sqlite "t1" []
          [sampleIdea "a" "" (some "fp") (some ⟨some 80, none, none, none⟩)]).1
        [sampleIdea "a" "" (some "fp") (some ⟨some 80, none, none, none⟩)]).1.filter
      (fun row => row.hash ==
        (sampleIdea "a" "" (some "fp") (some ⟨some 80, none, none, none⟩)).hash.getD "")).length = 1 :=
  store_analyzed_insert_or_replace.2 "t1" "t2" []
    (sampleIdea "a" "" (some "fp") (some ⟨some 80, none, none, none⟩)) (by decide)

/-- Idea whose `raw_content` key is present (an empty JSON object
payload) and which carries no analysis keys, used in concrete
instantiations. -/
def plainRawIdea : Idea :=
  { title := "t", description := "d", url := "", source := "", timestamp := none,
    hash := some "fp", rawContent := some "\x7b\x7d", analysis := none,
    analysisTimestamp := none }

theorem foldl_supaStoreRaw (nowSec : Nat) (ideas : List Idea) :
    ∀ (tbl : List SupaRawRow) (c : Nat),
      ideas.foldl (supaStoreRawStep nowSec) (tbl, c) =
        (tbl ++ (ideas.filter supaRawInsertOk).map (fun i => (i, nowSec)),
         c + (ideas.filter supaRawInsertOk).length) := by
  induction ideas with
  | nil => intro tbl c; simp
  | cons x t ih =>
      intro tbl c
      cases hx : supaRawInsertOk x with
      | false =>
          rw [List.foldl_cons,
            show supaStoreRawStep nowSec (tbl, c) x = (tbl, c) from by
              simp [supaStoreRawStep, hx],
            ih]
          simp [List.filter_cons, hx]
      | true =>
          rw [List.foldl_cons,
            show supaStoreRawStep nowSec (tbl, c) x = (tbl ++ [(x, nowSec)], c + 1) from by
              simp [supaStoreRawStep, hx],
            ih]
          simp only [List.filter_cons, hx, if_true, List.map_cons, List.length_cons,
            List.append_assoc, List.singleton_append, Prod.mk.injEq]
          exact ⟨trivial, by omega⟩

/-- C5 counterexample: storing the same fingerprinted idea (raw payload
present, no analysis keys) twice through the Supabase backend — a plain
insert against the documented table structure, which has no uniqueness
constraint on `hash` — appends two rows and counts the duplicate, while
the SQLite backend keeps one row and reports 0 for the duplicate: the two
backends do not share insert-or-ignore semantics, and for Supabase the
stored row count grows by 2 in total with the duplicate included in the
returned counts. -/
theorem store_raw_backend_divergence_counterexample :
    (store_raw_ideas_supabase 5
        (store_raw_ideas_supabase 5 [] [plainRawIdea]).1 [plainRawIdea]).1.length = 2 ∧
    (store_raw_ideas_supabase 5 [] [plainRawIdea]).2 = 1 ∧
    (store_raw_ideas_supabase 5
        (store_raw_ideas_supabase 5 [] [plainRawIdea]).1 [plainRawIdea]).2 = 1 ∧
    (store_raw_ideas_sqlite "n" 5
        (store_raw_ideas_sqlite "n" 5 [] [plainRawIdea]).1 [plainRawIdea]).1.length = 1 ∧
    (store_raw_ideas_sqlite "n" 5
        (store_raw_ideas_sqlite "n" 5 [] [plainRawIdea]).1 [plainRawIdea]).2 = 0 := by
  decide

/-- C5 amended: only the SQLite backend has insert-or-ignore-by-fingerprint
semantics: a repeated store of the same fingerprinted idea leaves the
table unchanged and returns 0, so the row count grows by at most 1 in
total (an idea whose `raw_content` key is absent is skipped uncounted by
its per-row `KeyError`).  The Supabase backend plain-inserts every idea
whose keys fit the documented `raw_ideas` columns, appending one row per
such idea and counting every insert, duplicates included; ideas carrying
keys outside those columns error per row and are skipped uncounted. -/
theorem store_raw_backend_semantics :
    (∀ (now now2 : String) (nowSec nowSec2 : Nat) (table : List RawRow) (i : Idea),
        (store_raw_ideas_sqlite now2 nowSec2
            (store_raw_ideas_sqlite now nowSec table [i]).1 [i]).1 =
          (store_raw_ideas_sqlite now nowSec table [i]).1 ∧
        (store_raw_ideas_sqlite now2 nowSec2
            (store_raw_ideas_sqlite now nowSec table [i]).1 [i]).2 = 0 ∧
        (store_raw_ideas_sqlite now nowSec table [i]).1.length ≤ table.length + 1) ∧
    (∀ (nowSec : Nat) (table : List SupaRawRow) (ideas : List Idea),
        (store_raw_ideas_supabase nowSec table ideas).1 =
          table ++ (ideas.filter supaRawInsertOk).map (fun i => (i, nowSec)) ∧
        (store_raw_ideas_supabase nowSec table ideas).2 =
          (ideas.filter supaRawInsertOk).length) := by
  constructor
  · intro now now2 nowSec nowSec2 table i
    cases hrc : i.rawContent with
    | none =>
        have hone : ∀ (n : String) (ns : Nat) (tbl : List RawRow),
            store_raw_ideas_sqlite n ns tbl [i] = (tbl, 0) := by
          intro n ns tbl
          rw [store_raw_ideas_sqlite]
          simp [sqliteStoreRaw, sqliteStoreRawStep, hrc]
        rw [hone, hone]
        exact ⟨rfl, rfl, Nat.le_succ _⟩
    | some rc =>
        have hone : ∀ (n : String) (ns : Nat) (tbl : List RawRow),
            store_raw_ideas_sqlite n ns tbl [i] =
              if tbl.any (fun row => row.hash == i.hash.getD "") then (tbl, 0)
              else (tbl ++ [rawRowOfIdea n ns i rc], 1) := by
          intro n ns tbl
          rw [store_raw_ideas_sqlite]
          simp only [List.isEmpty_cons, Bool.false_eq_true, if_false, sqliteStoreRaw,
            List.foldl_cons, List.foldl_nil, sqliteStoreRawStep, hrc]
          rfl
        have hmem : ∃ row ∈ (store_raw_ideas_sqlite now nowSec table [i]).1,
            row.hash = i.hash.getD "" := by
          rw [hone]
          by_cases hany : table.any (fun row => row.hash == i.hash.getD "")
          · obtain ⟨row, hrow, heq⟩ := List.any_eq_true.mp hany
            exact ⟨row, by simp [hany, hrow], by simpa using heq⟩
          · refine ⟨rawRowOfIdea now nowSec i rc, ?_, rfl⟩
            have hany2 : table.any (fun row => row.hash == i.hash.getD "") = false := by
              simpa using hany
            simp [hany2]
        obtain ⟨row, hrow, hrowh⟩ := hmem
        have hany1 : (store_raw_ideas_sqlite now nowSec table [i]).1.any
            (fun row => row.hash == i.hash.getD "") = true :=
          List.any_eq_true.mpr ⟨row, hrow, by simpa using hrowh⟩
        refine ⟨?_, ?_, ?_⟩
        · rw [hone now2 nowSec2, hany1]
          simp
        · rw [hone now2 nowSec2, hany1]
          simp
        · rw [hone now nowSec]
          by_cases hany : table.any (fun row => row.hash == i.hash.getD "")
          · simp [hany]
          · have hany2 : table.any (fun row => row.hash == i.hash.getD "") = false := by
              simpa using hany
            simp [hany2]
  · intro nowSec table ideas
    by_cases he : ideas.isEmpty
    · rw [List.isEmpty_iff.mp he]
      simp [store_raw_ideas_supabase]
    · have he2 : ideas.isEmpty = false := by simpa using he
      rw [store_raw_ideas_supabase, he2]
      simp only [Bool.false_eq_true, if_false]
      rw [supaStoreRaw, foldl_supaStoreRaw]
      exact ⟨rfl, by simp⟩

theorem length_filter_partition {α : Type} (p : α → Bool) (l : List α) :
    (l.filter p).length + (l.filter (fun a => !p a)).length = l.length := by
  induction l with
  | nil => rfl
  | cons x t ih => cases hx : p x <;> simp [List.filter_cons, hx] <;> omega

/-- Raw row created at the epoch, used in concrete instantiations. -/
def staleRow : RawRow :=
  { title := "t", description := "", url := "", source := "", timestamp := "",
    hash := "h", rawContent := "", createdAt := 0 }

/-- C4 counterexample: with now at 1000 seconds into day 1 and d = 1 the
cutoff instant lies 1000 seconds into day 0; the row created at second 0
is strictly older than now − d days, yet the SQLite cleanup compares
calendar dates only (`date(created_at) < date(cutoff)`), keeps the row
and reports 0 deletions. -/
theorem sqlite_cleanup_date_granularity_counterexample :
    staleRow.createdAt < (86400 + 1000) - 1 * 86400 ∧
    cleanup_old_raw_ideas_sqlite (86400 + 1000) 1 ⟨[staleRow], []⟩ =
      (⟨[staleRow], []⟩, 0) := by
  decide

/-- C4 amended: the SQLite cleanup deletes exactly the raw rows whose
creation calendar date is strictly before the calendar date of
now − d days (not the rows strictly older than that instant), leaves the
other raw rows and the whole analyzed table untouched, and returns the
count of deleted rows; the Supabase cleanup compares full timestamps and
does delete exactly the rows strictly older than the cutoff instant. -/
theorem cleanup_old_raw_semantics :
    (∀ (nowSec days : Nat) (db : SqliteDB),
        (cleanup_old_raw_ideas_sqlite nowSec days db).1.rawIdeas.Sublist
          db.rawIdeas ∧
        (∀ row : RawRow,
            row ∈ (cleanup_old_raw_ideas_sqlite nowSec days db).1.rawIdeas ↔
              row ∈ db.rawIdeas ∧
                ¬ dateOf row.createdAt < dateOf (nowSec - days * 86400)) ∧
        (cleanup_old_raw_ideas_sqlite nowSec days db).1.analyzedIdeas =
          db.analyzedIdeas ∧
        (cleanup_old_raw_ideas_sqlite nowSec days db).2 +
            (cleanup_old_raw_ideas_sqlite nowSec days db).1.rawIdeas.length =
          db.rawIdeas.length) ∧
    (∀ (nowSec days : Nat) (raw : List SupaRawRow),
        (supaCleanupOldRaw nowSec days raw).1.Sublist raw ∧
        (∀ row : SupaRawRow,
            row ∈ (supaCleanupOldRaw nowSec days raw).1 ↔
              row ∈ raw ∧ ¬ row.2 < nowSec - days * 86400) ∧
        (supaCleanupOldRaw nowSec days raw).2 +
            (supaCleanupOldRaw nowSec days raw).1.length = raw.length) := by
  constructor
  · intro nowSec days db
    refine ⟨List.filter_sublist _, ?_, rfl, ?_⟩
    · intro row
      rw [show (cleanup_old_raw_ideas_sqlite nowSec days db).1.rawIdeas =
          db.rawIdeas.filter
            (fun r => !decide (dateOf r.createdAt < dateOf (nowSec - days * 86400)))
        from rfl]
      rw [List.mem_filter]
      simp
    · exact length_filter_partition _ db.rawIdeas
  · intro nowSec days raw
    refine ⟨List.filter_sublist _, ?_, ?_⟩
    · intro row
      rw [show (supaCleanupOldRaw nowSec days raw).1 =
          raw.filter (fun r => !decide (r.2 < nowSec - days * 86400)) from rfl]
      rw [List.mem_filter]
      simp
    · exact length_filter_partition _ raw

/-- C8 counterexample: the fingerprint hashes the bare concatenation
`title + description`, so the records `("ab", "c")` and `("a", "bc")` —
two differing `(title, description)` pairs — always produce the same
fingerprint (the fingerprints never differ, rather than differing with
overwhelming probability). -/
theorem normalize_fingerprint_collision_counterexample :
    (normalize_data (fun _ => "") "" ⟨some "ab", some "c", none, []⟩ "s1").hash =
      (normalize_data (fun _ => "") "" ⟨some "a", some "bc", none, []⟩ "s2").hash ∧
    (⟨some "ab", some "c", none, []⟩ : RawRecord).title ≠
      (⟨some "a", some "bc", none, []⟩ : RawRecord).title := by
  decide

/-- C8 amended: the fingerprint depends only on the concatenation
`title + description` (missing fields defaulting to the empty string) —
identical `(title, description)` pairs give identical fingerprints
regardless of every other field, the serializer, the timestamp and the
source name, and more generally any two records whose concatenations
agree collide with certainty; only pairs with differing concatenations
can be expected to differ (under collision resistance of the hash). -/
theorem normalize_fingerprint_concatenation :
    (∀ (dumps1 dumps2 : RawRecord → String) (now1 now2 : String)
        (d1 d2 : RawRecord) (s1 s2 : String),
        d1.title = d2.title → d1.description = d2.description →
        (normalize_data dumps1 now1 d1 s1).hash =
          (normalize_data dumps2 now2 d2 s2).hash) ∧
    (∀ (dumps1 dumps2 : RawRecord → String) (now1 now2 : String)
        (d1 d2 : RawRecord) (s1 s2 : String),
        d1.title.getD "" ++ d1.description.getD "" =
          d2.title.getD "" ++ d2.description.getD "" →
        (normalize_data dumps1 now1 d1 s1).hash =
          (normalize_data dumps2 now2 d2 s2).hash) := by
  have hcat : ∀ (dumps1 dumps2 : RawRecord → String) (now1 now2 : String)
      (d1 d2 : RawRecord) (s1 s2 : String),
      d1.title.getD "" ++ d1.description.getD "" =
        d2.title.getD "" ++ d2.description.getD "" →
      (normalize_data dumps1 now1 d1 s1).hash =
        (normalize_data dumps2 now2 d2 s2).hash := by
    intro dumps1 dumps2 now1 now2 d1 d2 s1 s2 h
    simp only [normalize_data, h]
  exact ⟨fun dumps1 dumps2 now1 now2 d1 d2 s1 s2 ht hd =>
      hcat dumps1 dumps2 now1 now2 d1 d2 s1 s2 (by rw [ht, hd]),
    hcat⟩

/-- Witness instantiation for the C8 amended theorem at concrete inputs:
identical `(title, description)` with every other field different. -/
theorem normalize_fingerprint_concatenation_witness :
    (normalize_data (fun _ => "x") "2024-01-01"
        ⟨some "t", some "d", some "u", [("k", "v")]⟩ "reddit").hash =
      (normalize_data (fun _ => "y") "2025-06-30"
        ⟨some "t", some "d", none, []⟩ "producthunt").hash :=
  normalize_fingerprint_concatenation.1 (fun _ => "x") (fun _ => "y")
    "2024-01-01" "2025-06-30" ⟨some "t", some "d", some "u", [("k", "v")]⟩
    ⟨some "t", some "d", none, []⟩ "reddit" "producthunt" rfl rfl
